import Mathlib

/-!
Shallow embedding of the django-cardano transaction-construction engine
(`django_cardano/shortcuts.py`, `django_cardano/models.py`,
`django_cardano/util.py`, `django_cardano/cli.py`).

Modelling conventions:
* Python ints are `Int` (arbitrary precision, may go negative exactly as in
  the source's change computation).
* A UTxO's `Tokens` dict is an association list `List (String × Int)`;
  the parser in `AbstractWallet.utxos` builds it by dict assignment, so keys
  are unique by construction — theorems that depend on this carry it as a
  hypothesis.
* `utxo['Tokens'][asset]` is modelled by `quantityOf`, which returns the
  first binding (dict semantics) and defaults to 0 where the source would
  raise `KeyError` on data the ledger never produces (every real UTxO holds
  lovelace).
* External effects (cardano-cli calls) are modelled by explicit parameters:
  the fee returned by `transaction calculate-min-fee`, the estimated fee
  `txFeeFixed`, the dust oracle `CardanoUtils.min_token_dust_value`, and a
  `password` flag selecting the dry-run vs. submit path.  A pipeline that
  reaches `Transaction.submit` produces a `Tx` with `submitted := true`;
  raising `CardanoError` is modelled by `Except.error`.
-/

namespace DjangoCardano

/-- `django_cardano.settings.DEFAULTS['LOVELACE_UNIT']`. -/
def lovelace_unit : String := "lovelace"

/-- One row of `cardano-cli query utxo` as parsed by `AbstractWallet.utxos`:
`{'TxHash': …, 'TxIx': …, 'Tokens': {asset_id: count}}`. -/
structure Utxo where
  txHash : String
  txIx : Nat
  tokens : List (String × Int)
deriving Repr, DecidableEq

/-- Dict lookup on an association list, with `defaultdict(int)` semantics:
the first binding of the key, or 0 when absent. -/
def lookupD : List (String × Int) → String → Int
  | [], _ => 0
  | p :: rest, a => if p.1 = a then p.2 else lookupD rest a

/-- `utxo['Tokens'][asset]` (first binding; 0 where the dict has no key). -/
def quantityOf (u : Utxo) (asset : String) : Int :=
  lookupD u.tokens asset

/-- The `(TxHash, TxIx)` identity of a UTxO, as used in `tx-in` arguments. -/
def utxoKey (u : Utxo) : String × Nat := (u.txHash, u.txIx)

/-- The asset ids present in a UTxO (`tuple(tokens.keys())`). -/
def assetTypes (u : Utxo) : List String := u.tokens.map Prod.fst

/-- Per-UTxO body of the loop in `shortcuts.filter_utxos`: the (possibly
repeated) appends performed for one `utxo`, for the given `include`/`exclude`
arguments (`none` models Python `None`). -/
def filterKeep (incl excl : Option String) (u : Utxo) : List Utxo :=
  let fromInclude :=
    match incl with
    | some i =>
      if i = lovelace_unit then
        -- a single-asset UTxO is implicitly pure lovelace
        if (assetTypes u).length = 1 then [u] else []
      else if i ∈ assetTypes u then [u] else []
    | none => []
  let fromExclude :=
    match excl with
    | some e =>
      if e = lovelace_unit then
        if (assetTypes u).length > 1 then [u]
        else if e ∉ assetTypes u then [u] else []
      else []
    | none => []
  fromInclude ++ fromExclude

/-- `shortcuts.filter_utxos(utxos, include=…, exclude=…)`. -/
def filter_utxos : List Utxo → Option String → Option String → List Utxo
  | [], _, _ => []
  | u :: rest, incl, excl => filterKeep incl excl u ++ filter_utxos rest incl excl

/-- `shortcuts.sort_utxos(utxos, type=…, order=…)`: a stable sort by the
given asset's quantity, reversed (stably, as `sorted(…, reverse=True)`)
when `order == 'desc'`. -/
def sort_utxos (utxos : List Utxo) (ty : String) (order : String) : List Utxo :=
  if order = "desc" then
    List.insertionSort (fun a b => quantityOf b ty ≤ quantityOf a ty) utxos
  else
    List.insertionSort (fun a b => quantityOf a ty ≤ quantityOf b ty) utxos

/-- `sort_utxos` at its declared Python defaults (`type=LOVELACE_UNIT`,
`order='desc'`). -/
def sortUtxosDefault (utxos : List Utxo) : List Utxo :=
  sort_utxos utxos lovelace_unit "desc"

/-- The greedy accumulation loop shared by `send_lovelace`/`send_tokens`:
append each UTxO to the inputs, add its quantity of `asset` to the running
total `acc`, and break as soon as the total reaches `target`. -/
def greedyAccum (target : Int) (asset : String) : List Utxo → Int → List Utxo
  | [], _ => []
  | u :: rest, acc =>
    let acc' := acc + quantityOf u asset
    if target ≤ acc' then [u]
    else u :: greedyAccum target asset rest acc'

/-- `Σ utxo['Tokens'][asset]` over a list of UTxOs. -/
def sumQ (asset : String) (us : List Utxo) : Int :=
  (us.map (fun u => quantityOf u asset)).sum

/-- The UTXO selector of the spec (§4.1), as composed by the wallet
use-cases: filter to UTxOs holding `assetId`, sort by that asset's quantity
in the given order, then greedily accumulate towards `target`. -/
def utxoSelect (utxos : List Utxo) (assetId : String) (target : Int)
    (order : String) : List Utxo :=
  greedyAccum target assetId
    (sort_utxos (filter_utxos utxos (some assetId) none) assetId order) 0

/-- A `tx-out` argument `'{address}+{lovelace}'` or
`'{address}+{lovelace}+"{quantity} {asset_id}"'`, kept structured. -/
structure TxOut where
  address : String
  lovelace : Int
  tokens : List (String × Int)
deriving Repr, DecidableEq

/-- An `AbstractTransaction` at the end of a use-case: its `tx-in` pairs, its
`tx-out` list, the fee passed to `submit` (0 on the dry-run path), and whether
`Transaction.submit` (sign + `transaction submit`) was reached. -/
structure Tx where
  inputs : List (String × Nat)
  outputs : List TxOut
  fee : Int
  submitted : Bool
deriving Repr, DecidableEq

/-- `exceptions.CardanoError` as raised by the use-cases under study. -/
inductive CardanoError where
  | insufficientFunds (msg : String)
deriving Repr, DecidableEq

/-- A heterogeneous CLI argument: `AbstractTransaction.tx_args` is
`self.inputs + self.outputs`. -/
inductive TxArg where
  | inArg (i : String × Nat)
  | outArg (o : TxOut)
deriving Repr, DecidableEq

/-- `AbstractTransaction.tx_args`. -/
def txArgs (t : Tx) : List TxArg :=
  t.inputs.map TxArg.inArg ++ t.outputs.map TxArg.outArg

/-- `AbstractTransaction.generate_draft`: `transaction build-raw` over exactly
`tx_args` with `fee=0`; nothing is signed or submitted. -/
def generate_draft (inputs : List (String × Nat)) (outputs : List TxOut) : Tx :=
  { inputs := inputs, outputs := outputs, fee := 0, submitted := false }

/-- `transaction.outputs[-1] = new_out` (the change-output rewrite every
use-case performs after `calculate_min_fee`). -/
def setLast (outs : List TxOut) (newOut : TxOut) : List TxOut :=
  outs.set (outs.length - 1) newOut

/-- Rewrite the trailing change output of a drafted transaction. -/
def finalizeLast (t : Tx) (newOut : TxOut) : Tx :=
  { t with outputs := setLast t.outputs newOut }

/-- `Transaction.submit(wallet, fee, password)`: rebuild, sign and submit. -/
def submitTx (t : Tx) (fee : Int) : Tx :=
  { t with fee := fee, submitted := true }

/-- The wallet state a use-case reads: its payment address and the parsed
UTxO snapshot returned by the `utxos` property. -/
structure Wallet where
  payment_address : String
  utxos : List Utxo
deriving Repr, DecidableEq

/-- `AbstractWallet.lovelace_utxos`: `filter_utxos(self.utxos, include=lovelace_unit)`. -/
def lovelace_utxos (w : Wallet) : List Utxo :=
  filter_utxos w.utxos (some lovelace_unit) none

/-- `AbstractWallet.token_utxos`: `filter_utxos(self.utxos, exclude=lovelace_unit)`. -/
def token_utxos (w : Wallet) : List Utxo :=
  filter_utxos w.utxos none (some lovelace_unit)

/-- `all_tokens[token_id] += token_count` on a `defaultdict(int)`: bump the
first binding, or append a fresh one at the end. -/
def bumpToken : List (String × Int) → String → Int → List (String × Int)
  | [], a, q => [(a, q)]
  | p :: rest, a, q =>
    if p.1 = a then (p.1, p.2 + q) :: rest else p :: bumpToken rest a q

/-- The inner loop of `AbstractWallet.balance`: add one UTxO's token dict
into the accumulator. -/
def addTokens (m : List (String × Int)) (ts : List (String × Int)) :
    List (String × Int) :=
  ts.foldl (fun acc p => bumpToken acc p.1 p.2) m

/-- The `all_tokens` side of `AbstractWallet.balance`. -/
def balanceTokens (utxos : List Utxo) : List (String × Int) :=
  utxos.foldl (fun acc u => addTokens acc u.tokens) []

/-- `AbstractWallet.balance` returns `(all_tokens, utxos)`. -/
def balance (w : Wallet) : List (String × Int) × List Utxo :=
  (balanceTokens w.utxos, w.utxos)

/-- The token-bundle string `f'"{quantity} {asset_id}"'`. -/
def token_bundle_str (q : Int) (assetId : String) : String :=
  "\"" ++ toString q ++ " " ++ assetId ++ "\""

/-! ### `AbstractWallet.send_lovelace` -/

/-- The inputs selected by `send_lovelace`: lovelace-only UTxOs, sorted with
`sort_utxos`'s defaults (descending), greedily accumulated until the running
total covers `quantity + estimated_tx_fee`. -/
def sendLovelaceSelected (w : Wallet) (quantity estimatedTxFee : Int) :
    List Utxo :=
  greedyAccum (quantity + estimatedTxFee) lovelace_unit
    (sortUtxosDefault (lovelace_utxos w)) 0

/-- `AbstractWallet.send_lovelace(quantity, to_address, password)`.
`estimatedTxFee` is the protocol's `txFeeFixed`; `txFee` is the
`calculate_min_fee` result used on the submit path. -/
def send_lovelace (w : Wallet) (quantity : Int) (toAddress : String)
    (estimatedTxFee txFee : Int) (password : Bool) : Except CardanoError Tx :=
  let selected := sendLovelaceSelected w quantity estimatedTxFee
  let total := sumQ lovelace_unit selected
  let draft := generate_draft (selected.map utxoKey)
    [⟨toAddress, quantity, []⟩, ⟨w.payment_address, total, []⟩]
  if password then
    .ok (submitTx
      (finalizeLast draft ⟨w.payment_address, total - quantity - txFee, []⟩)
      txFee)
  else
    .ok draft

/-! ### `AbstractWallet.send_tokens` -/

/-- The token-bearing inputs of `send_tokens`: UTxOs holding `assetId`,
sorted by that asset with the default (descending) order, greedily
accumulated until the token total covers `quantity`. -/
def sendTokensTokenSelected (w : Wallet) (assetId : String) (quantity : Int) :
    List Utxo :=
  greedyAccum quantity assetId
    (sort_utxos (filter_utxos w.utxos (some assetId) none) assetId "desc") 0

/-- All inputs of `send_tokens`: the largest pure-lovelace UTxO followed by
the token-bearing inputs (empty when no pure-lovelace UTxO exists, in which
case `send_tokens` raises before selecting anything). -/
def sendTokensSelected (w : Wallet) (assetId : String) (quantity : Int) :
    List Utxo :=
  match sortUtxosDefault (lovelace_utxos w) with
  | [] => []
  | lovelaceUtxo :: _ => lovelaceUtxo :: sendTokensTokenSelected w assetId quantity

/-- `AbstractWallet.send_tokens(asset_id, quantity, to_address, password)`.
`dustFn` models `CardanoUtils.min_token_dust_value` applied to the formatted
token-bundle string; `txFee` the `calculate_min_fee` result. -/
def send_tokens (w : Wallet) (assetId : String) (quantity : Int)
    (toAddress : String) (dustFn : String → Int) (txFee : Int)
    (password : Bool) : Except CardanoError Tx :=
  match sortUtxosDefault (lovelace_utxos w) with
  | [] => .error (.insufficientFunds "Insufficient ADA funds to complete transaction")
  | lovelaceUtxo :: _ =>
    let tokenSelected := sendTokensTokenSelected w assetId quantity
    let totalTokensBeingSent := sumQ assetId tokenSelected
    let totalLovelaceBeingSent :=
      quantityOf lovelaceUtxo lovelace_unit + sumQ lovelace_unit tokenSelected
    let inputs := utxoKey lovelaceUtxo :: tokenSelected.map utxoKey
    if totalTokensBeingSent < quantity then
      .error (.insufficientFunds "Insufficient tokens")
    else
      let dust1 := dustFn (token_bundle_str quantity assetId)
      let tokensToReturn := totalTokensBeingSent - quantity
      let firstOuts :=
        if 0 < tokensToReturn then
          [(⟨toAddress, dust1, [(assetId, quantity)]⟩ : TxOut),
           ⟨w.payment_address, dustFn (token_bundle_str tokensToReturn assetId),
            [(assetId, tokensToReturn)]⟩]
        else
          [(⟨toAddress, dust1, [(assetId, quantity)]⟩ : TxOut)]
      let lovelaceToReturn :=
        totalLovelaceBeingSent - (firstOuts.map TxOut.lovelace).sum
      let draft := generate_draft inputs
        (firstOuts ++ [⟨w.payment_address, lovelaceToReturn, []⟩])
      if password then
        .ok (submitTx
          (finalizeLast draft ⟨w.payment_address, lovelaceToReturn - txFee, []⟩)
          txFee)
      else
        .ok draft

/-! ### `AbstractWallet.consolidate_utxos` -/

/-- `AbstractWallet.consolidate_utxos(password)`. -/
def consolidate_utxos (w : Wallet) (dustFn : String → Int) (txFee : Int)
    (password : Bool) : Tx :=
  let allTokens := (balance w).1
  let utxos := (balance w).2
  let inputs := utxos.map utxoKey
  let remaining0 := lookupD allTokens lovelace_unit
  let rest := allTokens.filter (fun p => ¬ (p.1 = lovelace_unit))
  let tokenOuts := rest.map (fun p =>
    (⟨w.payment_address, dustFn (token_bundle_str p.2 p.1), [(p.1, p.2)]⟩ : TxOut))
  let remainingLovelace := remaining0 - (tokenOuts.map TxOut.lovelace).sum
  let draft := generate_draft inputs
    (tokenOuts ++ [⟨w.payment_address, remainingLovelace, []⟩])
  if password then
    submitTx
      (finalizeLast draft ⟨w.payment_address, remainingLovelace - txFee, []⟩)
      txFee
  else
    draft

/-! ### `AbstractWallet.partition_lovelace` -/

/-- `AbstractWallet.partition_lovelace(values, password)`. -/
def partition_lovelace (w : Wallet) (values : List Int) (txFee : Int)
    (password : Bool) : Tx :=
  let selected := lovelace_utxos w
  let inputs := selected.map utxoKey
  let surplusLovelace := sumQ lovelace_unit selected - values.sum
  let draft := generate_draft inputs
    (values.map (fun v => (⟨w.payment_address, v, []⟩ : TxOut))
      ++ [⟨w.payment_address, surplusLovelace, []⟩])
  if password then
    submitTx
      (finalizeLast draft ⟨w.payment_address, surplusLovelace - txFee, []⟩)
      txFee
  else
    draft

/-! ### `AbstractWallet.mint_tokens` -/

/-- The asset id minted by `mint_tokens`: `policy_id` or
`policy_id.asset_name` (Python truthiness: an empty `asset_name` is falsy
and adds no name segment). -/
def mintAssetId (policyId : String) (assetName : Option String) : String :=
  match assetName with
  | some n => if n = "" then policyId else policyId ++ "." ++ n
  | none => policyId

/-- `AbstractWallet.mint_tokens`: `policyId`/`assetName` form the asset id,
the payment UTxO defaults to the wallet's largest pure-lovelace UTxO, and the
minted bundle accompanies the first output.  `passwords` models both spending
and minting passwords being supplied. -/
def mint_tokens (w : Wallet) (policyId : String) (quantity : Int)
    (toAddress : String) (assetName : Option String)
    (paymentUtxoArg : Option Utxo) (changeAddress : Option String)
    (dustFn : String → Int) (txFee : Int) (passwords : Bool) :
    Except CardanoError Tx :=
  let surplusAddress := changeAddress.getD w.payment_address
  let paymentUtxo? :=
    match paymentUtxoArg with
    | some u => some u
    | none => (sortUtxosDefault (lovelace_utxos w)).head?
  match paymentUtxo? with
  | none => .error (.insufficientFunds "Inadequate funds to complete transaction")
  | some paymentUtxo =>
    let assetId := mintAssetId policyId assetName
    let tokenDust := dustFn (token_bundle_str quantity assetId)
    let totalLovelaceBeingSent := quantityOf paymentUtxo lovelace_unit
    let lovelaceToReturn := totalLovelaceBeingSent - tokenDust
    let draft := generate_draft [utxoKey paymentUtxo]
      [⟨toAddress, tokenDust, [(assetId, quantity)]⟩,
       ⟨surplusAddress, lovelaceToReturn, []⟩]
    if passwords then
      .ok (submitTx
        (finalizeLast draft ⟨surplusAddress, lovelaceToReturn - txFee, []⟩)
        txFee)
    else
      .ok draft

/-! ### `CardanoUtils.consolidate_tokens` (`util.py`) -/

/-- The per-asset `tx-out` entries built by `CardanoUtils.consolidate_tokens`
(one output per non-native asset, each carrying the flat `token_lovelace`). -/
def utilTokenOuts (w : Wallet) (tokenLovelace : Int) : List TxOut :=
  ((balanceTokens w.utxos).filter (fun p => ¬ (p.1 = lovelace_unit))).map
    (fun p => (⟨w.payment_address, tokenLovelace, [(p.1, p.2)]⟩ : TxOut))

/-- The `remaining_lovelace` of `CardanoUtils.consolidate_tokens` after
deducting every token output's accompanying lovelace. -/
def utilRemaining (w : Wallet) (minUtxoValue : Int) : Int :=
  lookupD (balanceTokens w.utxos) lovelace_unit -
    ((utilTokenOuts w (minUtxoValue * 2)).map TxOut.lovelace).sum

/-- `util.CardanoUtils.consolidate_tokens(wallet)`: like
`consolidate_utxos` but with a flat `token_lovelace = minUTxOValue * 2` dust
value per token output, and with the mandatory post-fee check
`remaining_lovelace - tx_fee < min_utxo_value` that raises before
`_submit_transaction` (and hence before any signing). -/
def utilConsolidateTokens (w : Wallet) (minUtxoValue txFee : Int) :
    Except CardanoError Tx :=
  let tokenLovelace := minUtxoValue * 2
  let inputs := w.utxos.map utxoKey
  let tokenOuts := utilTokenOuts w tokenLovelace
  let remainingLovelace := utilRemaining w minUtxoValue
  let draft := generate_draft inputs
    (tokenOuts ++ [⟨w.payment_address, remainingLovelace, []⟩])
  if remainingLovelace - txFee < minUtxoValue then
    .error (.insufficientFunds "Insufficient lovelace available to perform consolidation.")
  else
    .ok (submitTx
      (finalizeLast draft ⟨w.payment_address, remainingLovelace - txFee, []⟩)
      txFee)

/-! ### Output sums -/

/-- Total lovelace carried by a list of outputs. -/
def outLovelaceSum (outs : List TxOut) : Int :=
  (outs.map TxOut.lovelace).sum

/-- Total quantity of asset `a` carried by a list of outputs. -/
def outAssetSum (a : String) (outs : List TxOut) : Int :=
  (outs.map (fun o => ((o.tokens.filter (fun p => p.1 == a)).map Prod.snd).sum)).sum

/-- Total quantity bound to key `a` across all entries of an association
list (used to state the balance homomorphism). -/
def tsSumAll (ts : List (String × Int)) (a : String) : Int :=
  ((ts.filter (fun p => p.1 == a)).map Prod.snd).sum

/-! ### Fee-response parsing (`MIN_FEE_RE` / `calculate_min_fee`) -/

/-- Python's `\s` class over the ASCII characters the CLI emits. -/
def isPySpace (c : Char) : Bool :=
  c = ' ' || c = '\t' || c = '\n' || c = '\x0d' || c = '\x0b' || c = '\x0c'

/-- Numeric value of a digit run, as `int(match[1])` reads it. -/
def digitsToNat (ds : List Char) : Nat :=
  ds.foldl (fun n c => n * 10 + (c.toNat - '0'.toNat)) 0

/-- Literal-prefix test on character lists (the `Lovelace` tail of the
regex). -/
def listStartsWith : List Char → List Char → Bool
  | [], _ => true
  | _ :: _, [] => false
  | p :: ps, c :: cs => p = c && listStartsWith ps cs

/-- `MIN_FEE_RE.match(raw)` for `MIN_FEE_RE = re.compile(r'(\d+)\s+Lovelace')`:
an anchored match of a nonempty digit run, a nonempty whitespace run, then
the literal `Lovelace` (trailing characters permitted).  Greedy maximal runs
are equivalent to the regex since a digit is never whitespace and `L` is
neither. -/
def minFeeMatchL (s : List Char) : Option Nat :=
  let ds := s.takeWhile Char.isDigit
  let rest := s.dropWhile Char.isDigit
  if ds.isEmpty then none
  else
    let ws := rest.takeWhile isPySpace
    let rest2 := rest.dropWhile isPySpace
    if ws.isEmpty then none
    else if listStartsWith ("Lovelace".toList) rest2 then some (digitsToNat ds)
    else none

/-- The parsing step of `AbstractTransaction.calculate_min_fee`:
`int(MIN_FEE_RE.match(raw_response)[1])`.  `none` models the hard error
(`TypeError` on the unmatched `None`) raised when the response does not
match the `<integer> Lovelace` pattern — the fee is never a silent zero. -/
def calculate_min_fee (raw : String) : Option Nat :=
  minFeeMatchL raw.toList

/-! ### Token-bundle sizing

Modelled from the spec: `CardanoUtils.token_bundle_info` and
`CardanoUtils.token_bundle_size` are invoked by `models.py` and pinned by
`tests.py:test_token_bundle_size`, but their bodies are not in the source
tree under verification; the definitions below follow the spec's §4.2 words:
parse the bundle into (assetId, quantity) pairs, compute `numAssets`,
distinct `policyIds`, distinct `assetNames` and `sumAssetNameLengths`, then
`byteCount = numAssets*12 + sumAssetNameLengths + Σ len_hex_bytes(policyId)`
and `bundleSizeWords = 6 + ceil((byteCount + 7) / 8)`. -/

/-- Split a character list on runs of spaces (Python `str.split()`). -/
def splitWsAux : List Char → List Char → List (List Char)
  | [], acc => if acc.isEmpty then [] else [acc.reverse]
  | c :: cs, acc =>
    if c = ' ' then
      if acc.isEmpty then splitWsAux cs [] else acc.reverse :: splitWsAux cs []
    else splitWsAux cs (c :: acc)

/-- Whitespace-split of a bundle string. -/
def splitWs (s : List Char) : List (List Char) := splitWsAux s []

/-- The asset-id halves of the (quantity, assetId) token pairs: the
odd-indexed whitespace tokens of the bundle. -/
def oddTokens : List (List Char) → List (List Char)
  | [] => []
  | [_] => []
  | _ :: a :: rest => a :: oddTokens rest

/-- Split an asset id at its first `.` into (policyId, assetName); an id
without a dot is a policy-only id with an empty asset name. -/
def splitAtDot : List Char → List Char × List Char
  | [] => ([], [])
  | c :: cs =>
    if c = '.' then ([], cs)
    else
      let pn := splitAtDot cs
      (c :: pn.1, pn.2)

/-- Modelled from the spec: the parsed asset ids of a token-bundle string. -/
def bundleAssetIds (bundle : String) : List (List Char) :=
  oddTokens (splitWs bundle.toList)

/-- Modelled from the spec: `byteCount = numAssets*12 + sumAssetNameLengths
+ Σ(len_hex_bytes(policyId) for each distinct policyId)`, asset-name lengths
summed over distinct names and hex length rounded up to whole bytes. -/
def bundleByteCount (bundle : String) : Nat :=
  let ids := bundleAssetIds bundle
  let pids := (ids.map (fun i => (splitAtDot i).1)).dedup
  let names := (ids.map (fun i => (splitAtDot i).2)).dedup
  ids.length * 12 + (names.map List.length).sum +
    (pids.map (fun p => (p.length + 1) / 2)).sum

/-- Modelled from the spec: `bundleSizeWords = 6 + ceil((byteCount + 7) / 8)`
(`CardanoUtils.token_bundle_size`). -/
def token_bundle_size (bundle : String) : Nat :=
  6 + (bundleByteCount bundle + 7 + 7) / 8

/-- `tests.TOKEN_BUNDLE_PARTS`. -/
def TOKEN_BUNDLE_PARTS : List String :=
  ["\"1 fe1249f6a018ccc7a620df6226d6b9b9a63555593051b79885dc2e27\"",
   "\"1 fe1249f6a018ccc7a620df6226d6b9b9a63555593051b79885dc2e28.TestNFT\"",
   "\"1 fe1249f6a018ccc7a620df6226d6b9b9a63555593051b79885dc2e29.TestNFT2\"",
   "\"1 fe1249f6a018ccc7a620df6226d6b9b9a63555593051b79885dc2e29.TestNFT3\"",
   "\"1 fe1249f6a018ccc7a620df6226d6b9b9a63555593051b79885dc2e29.TestNFT4\""]

/-- `tests.DEFAULT_TOKEN_BUNDLE = ' '.join(TOKEN_BUNDLE_PARTS)`. -/
def DEFAULT_TOKEN_BUNDLE : String := String.intercalate " " TOKEN_BUNDLE_PARTS

/-! ### `MintingPolicyManager.create` -/

/-- One clause of the policy script JSON (`sig` / `after` / `before`). -/
inductive ScriptClause where
  | sigClause (keyHash : String)
  | afterSlot (slot : Nat)
  | beforeSlot (slot : Nat)
deriving Repr, DecidableEq

/-- The `{'type': 'all', 'scripts': …}` list built by
`MintingPolicyManager.create` (Python truthiness: a `0` slot, like `None`,
adds no time-bound clause). -/
def buildPolicyScript (keyHash : String)
    (invalidBefore invalidHereafter : Option Nat) : List ScriptClause :=
  [ScriptClause.sigClause keyHash]
    ++ (match invalidBefore with
        | some s => if s = 0 then [] else [ScriptClause.afterSlot s]
        | none => [])
    ++ (match invalidHereafter with
        | some s => if s = 0 then [] else [ScriptClause.beforeSlot s]
        | none => [])

/-- A fully-populated minting-policy record as persisted by `policy.save()`. -/
structure PolicyRecord where
  policy_id : String
  script : List ScriptClause
  signing_key : String
  verification_key : String
deriving Repr, DecidableEq

/-- Results of the three external CLI calls performed by
`MintingPolicyManager.create` (`address key-gen`, `address key-hash`,
`transaction policyid`); `.error` models the call raising `CardanoError`. -/
structure PolicyOracle where
  keyGen : Except String (String × String)
  keyHash : String → Except String String
  policyIdOfScript : List ScriptClause → Except String String

/-- `MintingPolicyManager.create(password, invalid_before, invalid_hereafter)`
against a database `db`: keys are generated and encrypted, the script is
built and hashed, and only then is the record saved (appended to `db`).
Any failure propagates before the save. -/
def mintingPolicyCreate (o : PolicyOracle)
    (invalidBefore invalidHereafter : Option Nat) (db : List PolicyRecord) :
    Except String PolicyRecord × List PolicyRecord :=
  match o.keyGen with
  | .error e => (.error e, db)
  | .ok (sk, vk) =>
    match o.keyHash vk with
    | .error e => (.error e, db)
    | .ok kh =>
      let script := buildPolicyScript kh invalidBefore invalidHereafter
      match o.policyIdOfScript script with
      | .error e => (.error e, db)
      | .ok pid =>
        let policy : PolicyRecord := ⟨pid, script, sk, vk⟩
        (.ok policy, db ++ [policy])

/-! ### Concrete fixtures used by witnesses and counterexamples -/

/-- A two-UTxO pure-lovelace snapshot (quantities 1 and 2). -/
def demoUtxos : List Utxo :=
  [⟨"h1", 0, [("lovelace", 1)]⟩, ⟨"h2", 0, [("lovelace", 2)]⟩]

/-- A wallet holding one pure-lovelace UTxO and one multi-asset UTxO that
carries a second asset "B" alongside the transferred asset "A". -/
def walletAB : Wallet :=
  ⟨"self", [⟨"h1", 0, [("lovelace", 10)]⟩,
            ⟨"h2", 0, [("lovelace", 2), ("A", 5), ("B", 3)]⟩]⟩

/-- A wallet holding a single 100-lovelace UTxO. -/
def walletSmall : Wallet := ⟨"self", [⟨"h1", 0, [("lovelace", 100)]⟩]⟩

/-- A token-only wallet: no UTxO holds the native unit alone. -/
def walletTokenOnly : Wallet := ⟨"self", [⟨"h1", 0, [("lovelace", 2), ("A", 1)]⟩]⟩

/-- A policy oracle whose `address key-hash` call fails. -/
def failingHashOracle : PolicyOracle :=
  ⟨.ok ("sk", "vk"), fun _ => .error "key-hash failed", fun _ => .ok "pid"⟩

/-- A policy oracle whose three external calls all succeed. -/
def okPolicyOracle : PolicyOracle :=
  ⟨.ok ("sk", "vk"), fun _ => .ok "kh", fun _ => .ok "pid"⟩

/-! ## Helper lemmas -/

theorem sumQ_nil (a : String) : sumQ a [] = 0 := rfl

theorem sumQ_cons (a : String) (u : Utxo) (us : List Utxo) :
    sumQ a (u :: us) = quantityOf u a + sumQ a us := by
  simp [sumQ]

theorem sumQ_append (a : String) (xs ys : List Utxo) :
    sumQ a (xs ++ ys) = sumQ a xs + sumQ a ys := by
  simp [sumQ]

theorem filterKeep_incl_sub (i : String) (u : Utxo) :
    List.Sublist (filterKeep (some i) none u) [u] := by
  simp only [filterKeep]
  split
  · split
    · exact List.Sublist.refl _
    · exact List.nil_sublist _
  · split
    · exact List.Sublist.refl _
    · exact List.nil_sublist _

theorem filterKeep_excl_sub (e : String) (u : Utxo) :
    List.Sublist (filterKeep none (some e) u) [u] := by
  simp only [filterKeep]
  split
  · split
    · exact List.Sublist.refl _
    · split
      · exact List.Sublist.refl _
      · exact List.nil_sublist _
  · exact List.nil_sublist _

theorem filter_utxos_incl_sub (utxos : List Utxo) (i : String) :
    List.Sublist (filter_utxos utxos (some i) none) utxos := by
  induction utxos with
  | nil => simp [filter_utxos]
  | cons u rest ih =>
    have : filter_utxos (u :: rest) (some i) none =
        filterKeep (some i) none u ++ filter_utxos rest (some i) none := rfl
    rw [this]
    have h1 : List.Sublist (filterKeep (some i) none u ++ filter_utxos rest (some i) none)
        ([u] ++ rest) := List.Sublist.append (filterKeep_incl_sub i u) ih
    simpa using h1

theorem filter_utxos_excl_sub (utxos : List Utxo) (e : String) :
    List.Sublist (filter_utxos utxos none (some e)) utxos := by
  induction utxos with
  | nil => simp [filter_utxos]
  | cons u rest ih =>
    have : filter_utxos (u :: rest) none (some e) =
        filterKeep none (some e) u ++ filter_utxos rest none (some e) := rfl
    rw [this]
    have h1 : List.Sublist (filterKeep none (some e) u ++ filter_utxos rest none (some e))
        ([u] ++ rest) := List.Sublist.append (filterKeep_excl_sub e u) ih
    simpa using h1

theorem greedyAccum_extends (t : Int) (a : String) :
    ∀ (l : List Utxo) (acc : Int), ∃ rest, l = greedyAccum t a l acc ++ rest := by
  intro l
  induction l with
  | nil => exact fun _ => ⟨[], rfl⟩
  | cons u us ih =>
    intro acc
    simp only [greedyAccum]
    split
    · exact ⟨us, rfl⟩
    · obtain ⟨rest, h⟩ := ih (acc + quantityOf u a)
      exact ⟨rest, by rw [List.cons_append, ← h]⟩

theorem greedyAccum_sub (t : Int) (a : String) (l : List Utxo) (acc : Int) :
    List.Sublist (greedyAccum t a l acc) l := by
  obtain ⟨rest, h⟩ := greedyAccum_extends t a l acc
  conv_rhs => rw [h]
  exact List.sublist_append_left _ _

theorem greedyAccum_stop (t : Int) (a : String) :
    ∀ (l : List Utxo) (acc : Int),
      greedyAccum t a l acc = l ∨ t ≤ acc + sumQ a (greedyAccum t a l acc) := by
  intro l
  induction l with
  | nil => exact fun _ => Or.inl rfl
  | cons u us ih =>
    intro acc
    simp only [greedyAccum]
    split
    · right
      rename_i h
      simpa [sumQ_cons, sumQ_nil, ← add_assoc] using h
    · rcases ih (acc + quantityOf u a) with h | h
      · exact Or.inl (by rw [h])
      · right
        rw [sumQ_cons]
        linarith

theorem greedyAccum_min (t : Int) (a : String) :
    ∀ (l : List Utxo) (acc : Int) (k : Nat), 0 < k →
      k < (greedyAccum t a l acc).length →
      acc + sumQ a ((greedyAccum t a l acc).take k) < t := by
  intro l
  induction l with
  | nil => intro acc k _ hk; simp [greedyAccum] at hk
  | cons u us ih =>
    intro acc k hk0 hk
    simp only [greedyAccum] at hk ⊢
    by_cases hcond : t ≤ acc + quantityOf u a
    · rw [if_pos hcond] at hk
      simp at hk
      omega
    · rw [if_neg hcond] at hk ⊢
      push_neg at hcond
      obtain ⟨j, rfl⟩ : ∃ j, k = j + 1 := ⟨k - 1, by omega⟩
      rw [List.take_succ_cons, sumQ_cons]
      rcases Nat.eq_zero_or_pos j with hj | hj
      · subst hj
        simp only [List.take_zero, sumQ_nil]
        linarith
      · have hlen : j < (greedyAccum t a us (acc + quantityOf u a)).length := by
          simpa [Nat.succ_lt_succ_iff] using hk
        have := ih (acc + quantityOf u a) j hj hlen
        linarith

theorem sort_utxos_perm (utxos : List Utxo) (ty order : String) :
    List.Perm (sort_utxos utxos ty order) utxos := by
  unfold sort_utxos
  split
  · exact List.perm_insertionSort _ _
  · exact List.perm_insertionSort _ _

theorem sort_utxos_sorted_desc (utxos : List Utxo) (ty : String) :
    (sort_utxos utxos ty "desc").Pairwise
      (fun a b => quantityOf b ty ≤ quantityOf a ty) := by
  haveI : IsTotal Utxo (fun a b => quantityOf b ty ≤ quantityOf a ty) :=
    ⟨fun a b => le_total (quantityOf b ty) (quantityOf a ty)⟩
  haveI : IsTrans Utxo (fun a b => quantityOf b ty ≤ quantityOf a ty) :=
    ⟨fun _ _ _ hab hbc => le_trans hbc hab⟩
  simpa [sort_utxos] using
    List.sorted_insertionSort (fun a b => quantityOf b ty ≤ quantityOf a ty) utxos

theorem sort_utxos_sorted_asc (utxos : List Utxo) (ty order : String)
    (h : order ≠ "desc") :
    (sort_utxos utxos ty order).Pairwise
      (fun a b => quantityOf a ty ≤ quantityOf b ty) := by
  haveI : IsTotal Utxo (fun a b => quantityOf a ty ≤ quantityOf b ty) :=
    ⟨fun a b => le_total (quantityOf a ty) (quantityOf b ty)⟩
  haveI : IsTrans Utxo (fun a b => quantityOf a ty ≤ quantityOf b ty) :=
    ⟨fun _ _ _ hab hbc => le_trans hab hbc⟩
  simpa [sort_utxos, h] using
    List.sorted_insertionSort (fun a b => quantityOf a ty ≤ quantityOf b ty) utxos

/-- Membership in the include-filtered selector pipeline traces back to the
input snapshot. -/
theorem utxoSelect_mem (utxos : List Utxo) (assetId : String) (target : Int)
    (order : String) (u : Utxo) (hu : u ∈ utxoSelect utxos assetId target order) :
    u ∈ utxos := by
  have h1 : u ∈ sort_utxos (filter_utxos utxos (some assetId) none) assetId order :=
    List.Sublist.mem hu (greedyAccum_sub _ _ _ _)
  have h2 : u ∈ filter_utxos utxos (some assetId) none :=
    (sort_utxos_perm _ _ _).mem_iff.mp h1
  exact List.Sublist.mem h2 (filter_utxos_incl_sub utxos assetId)

/-! ## Claim C4 -/

/-- C4 counterexample: with its declared Python defaults
(`type=LOVELACE_UNIT, order='desc'`), `sort_utxos` returns the demo UTxOs in
descending quantity order `[2, 1]`, which is not ascending — the claim's
"sorts them ascending by default" is false on the code. -/
theorem sort_utxos_default_descending_cex :
    (sortUtxosDefault demoUtxos).map (fun u => quantityOf u lovelace_unit) = [2, 1] ∧
    ¬ ((sortUtxosDefault demoUtxos).map
        (fun u => quantityOf u lovelace_unit)).Pairwise (· ≤ ·) := by
  exact ⟨by decide, by decide⟩

/-- C4 (amended): the UTXO selector sorts descending by default (ascending
exactly when a non-`'desc'` order is explicitly requested), always returns a
permutation of its input, and greedily accumulates UTxOs in sorted order: the
selection is a prefix of the sorted list, its running total reaches the
target unless the whole list is consumed, and before the final selected
element every running total is still below the target. -/
theorem sort_utxos_order_and_greedy_policy :
    (∀ (utxos : List Utxo) (ty : String),
      (sort_utxos utxos ty "desc").Pairwise
        (fun a b => quantityOf b ty ≤ quantityOf a ty))
    ∧ (∀ (utxos : List Utxo) (ty order : String), order ≠ "desc" →
      (sort_utxos utxos ty order).Pairwise
        (fun a b => quantityOf a ty ≤ quantityOf b ty))
    ∧ (∀ (utxos : List Utxo) (ty order : String),
      List.Perm (sort_utxos utxos ty order) utxos)
    ∧ (∀ (t : Int) (a : String) (l : List Utxo),
      ∃ rest, l = greedyAccum t a l 0 ++ rest)
    ∧ (∀ (t : Int) (a : String) (l : List Utxo),
      greedyAccum t a l 0 = l ∨ t ≤ sumQ a (greedyAccum t a l 0))
    ∧ (∀ (t : Int) (a : String) (l : List Utxo) (k : Nat), 0 < k →
      k < (greedyAccum t a l 0).length →
      sumQ a ((greedyAccum t a l 0).take k) < t) := by
  refine ⟨sort_utxos_sorted_desc, sort_utxos_sorted_asc, sort_utxos_perm,
    fun t a l => greedyAccum_extends t a l 0,
    fun t a l => by simpa using greedyAccum_stop t a l 0,
    fun t a l k hk0 hk => by simpa using greedyAccum_min t a l 0 k hk0 hk⟩

/-- Witness for `sort_utxos_order_and_greedy_policy` at concrete inputs. -/
theorem sort_utxos_order_and_greedy_policy_witness :
    (("asc" : String) ≠ "desc" ∧
      (sort_utxos demoUtxos lovelace_unit "asc").Pairwise
        (fun a b => quantityOf a lovelace_unit ≤ quantityOf b lovelace_unit)) ∧
    ((0 < 1 ∧ 1 < (greedyAccum 3 lovelace_unit demoUtxos 0).length) ∧
      sumQ lovelace_unit ((greedyAccum 3 lovelace_unit demoUtxos 0).take 1) < 3) :=
  ⟨⟨by decide,
    sort_utxos_order_and_greedy_policy.2.1 demoUtxos lovelace_unit "asc" (by decide)⟩,
   ⟨⟨by decide, by decide⟩,
    sort_utxos_order_and_greedy_policy.2.2.2.2.2 3 lovelace_unit demoUtxos 1
      (by decide) (by decide)⟩⟩

/-! ## Claim C9 -/

/-- C9: over any snapshot whose `(TxHash, TxIx)` pairs are distinct, the
selector pipeline (include-filter, sort, greedy accumulation) returns no
duplicate `(TxHash, TxIx)` pair; and (with ledger-nonnegative quantities)
ascending selection yields a non-decreasing running total. -/
theorem utxo_selector_nodup_and_monotone :
    ∀ (utxos : List Utxo) (assetId : String) (target : Int) (order : String),
      ((utxos.map utxoKey).Nodup →
        ((utxoSelect utxos assetId target order).map utxoKey).Nodup)
      ∧ (order ≠ "desc" → (∀ u ∈ utxos, 0 ≤ quantityOf u assetId) →
        ∀ k : Nat,
          sumQ assetId ((utxoSelect utxos assetId target order).take k) ≤
          sumQ assetId ((utxoSelect utxos assetId target order).take (k + 1))) := by
  intro utxos assetId target order
  constructor
  · intro hnd
    have hfilter : List.Sublist ((filter_utxos utxos (some assetId) none).map utxoKey)
        (utxos.map utxoKey) :=
      List.Sublist.map utxoKey (filter_utxos_incl_sub utxos assetId)
    have hsortp : List.Perm
        ((sort_utxos (filter_utxos utxos (some assetId) none) assetId order).map utxoKey)
        ((filter_utxos utxos (some assetId) none).map utxoKey) :=
      (sort_utxos_perm _ _ _).map utxoKey
    have hgreedy : List.Sublist ((utxoSelect utxos assetId target order).map utxoKey)
        ((sort_utxos (filter_utxos utxos (some assetId) none) assetId order).map utxoKey) :=
      List.Sublist.map utxoKey (greedyAccum_sub _ _ _ _)
    exact (hgreedy.nodup (hsortp.symm.nodup (hfilter.nodup hnd)))
  · intro _ hnn k
    rw [List.take_succ, sumQ_append]
    rcases hsel : (utxoSelect utxos assetId target order)[k]? with _ | u
    · simp [sumQ]
    · have hmem : u ∈ utxoSelect utxos assetId target order := List.getElem?_mem hsel
      have := hnn u (utxoSelect_mem utxos assetId target order u hmem)
      simp only [hsel, Option.toList_some]
      rw [sumQ_cons, sumQ_nil]
      linarith

/-- Witness for `utxo_selector_nodup_and_monotone` at concrete inputs. -/
theorem utxo_selector_nodup_and_monotone_witness :
    ((demoUtxos.map utxoKey).Nodup ∧
      ((utxoSelect demoUtxos lovelace_unit 3 "asc").map utxoKey).Nodup) ∧
    ((("asc" : String) ≠ "desc" ∧ (∀ u ∈ demoUtxos, 0 ≤ quantityOf u lovelace_unit)) ∧
      sumQ lovelace_unit ((utxoSelect demoUtxos lovelace_unit 3 "asc").take 1) ≤
        sumQ lovelace_unit ((utxoSelect demoUtxos lovelace_unit 3 "asc").take 2)) :=
  ⟨⟨by decide,
    (utxo_selector_nodup_and_monotone demoUtxos lovelace_unit 3 "asc").1 (by decide)⟩,
   ⟨⟨by decide, by decide⟩,
    (utxo_selector_nodup_and_monotone demoUtxos lovelace_unit 3 "asc").2
      (by decide) (by decide) 1⟩⟩

/-! ## Balance homomorphism lemmas -/

theorem lookupD_bump_self (m : List (String × Int)) (a : String) (q : Int) :
    lookupD (bumpToken m a q) a = lookupD m a + q := by
  induction m with
  | nil => simp [bumpToken, lookupD]
  | cons p rest ih =>
    simp only [bumpToken]
    by_cases h : p.1 = a
    · simp [lookupD, h]
    · simp [lookupD, h, ih]

theorem lookupD_bump_ne (m : List (String × Int)) (a b : String) (q : Int)
    (h : b ≠ a) : lookupD (bumpToken m a q) b = lookupD m b := by
  induction m with
  | nil => simp [bumpToken, lookupD, Ne.symm h]
  | cons p rest ih =>
    simp only [bumpToken]
    by_cases hp : p.1 = a
    · have hpb : p.1 ≠ b := by rw [hp]; exact Ne.symm h
      rw [if_pos hp]
      simp [lookupD, hpb]
    · rw [if_neg hp]
      by_cases hb : p.1 = b
      · simp [lookupD, hb]
      · simp [lookupD, hb, ih]

theorem mem_keys_bump (m : List (String × Int)) (a b : String) (q : Int) :
    b ∈ (bumpToken m a q).map Prod.fst ↔ b ∈ m.map Prod.fst ∨ b = a := by
  induction m with
  | nil => simp [bumpToken]
  | cons p rest ih =>
    simp only [bumpToken]
    by_cases hp : p.1 = a
    · rw [if_pos hp]
      subst hp
      simp only [List.map_cons, List.mem_cons]
      tauto
    · rw [if_neg hp]
      simp only [List.map_cons, List.mem_cons, ih]
      tauto

theorem keys_nodup_bump (m : List (String × Int)) (a : String) (q : Int)
    (h : (m.map Prod.fst).Nodup) : ((bumpToken m a q).map Prod.fst).Nodup := by
  induction m with
  | nil => simp [bumpToken]
  | cons p rest ih =>
    simp only [bumpToken]
    simp only [List.map_cons, List.nodup_cons] at h
    by_cases hp : p.1 = a
    · rw [if_pos hp]
      simp only [List.map_cons, List.nodup_cons]
      exact ⟨h.1, h.2⟩
    · rw [if_neg hp]
      simp only [List.map_cons, List.nodup_cons]
      refine ⟨?_, ih h.2⟩
      rw [mem_keys_bump]
      rintro (hm | hm)
      · exact h.1 hm
      · exact hp hm

theorem tsSumAll_nil (a : String) : tsSumAll [] a = 0 := rfl

theorem tsSumAll_cons (p : String × Int) (ts : List (String × Int)) (a : String) :
    tsSumAll (p :: ts) a =
      (if p.1 = a then p.2 else 0) + tsSumAll ts a := by
  by_cases h : p.1 = a <;> simp [tsSumAll, List.filter_cons, h]

theorem lookupD_addTokens (ts : List (String × Int)) (m : List (String × Int))
    (a : String) : lookupD (addTokens m ts) a = lookupD m a + tsSumAll ts a := by
  induction ts generalizing m with
  | nil => simp [addTokens, tsSumAll_nil]
  | cons p rest ih =>
    have hstep : addTokens m (p :: rest) = addTokens (bumpToken m p.1 p.2) rest := rfl
    rw [hstep, ih, tsSumAll_cons]
    by_cases h : p.1 = a
    · rw [h, lookupD_bump_self]
      simp [h]
      ring
    · rw [lookupD_bump_ne _ _ _ _ (fun hc => h hc.symm)]
      simp [h]

theorem mem_keys_addTokens (ts m : List (String × Int)) (b : String) :
    b ∈ (addTokens m ts).map Prod.fst ↔
      b ∈ m.map Prod.fst ∨ b ∈ ts.map Prod.fst := by
  induction ts generalizing m with
  | nil => simp [addTokens]
  | cons p rest ih =>
    have hstep : addTokens m (p :: rest) = addTokens (bumpToken m p.1 p.2) rest := rfl
    rw [hstep, ih, mem_keys_bump]
    simp
    tauto

theorem keys_nodup_addTokens (ts m : List (String × Int))
    (h : (m.map Prod.fst).Nodup) : ((addTokens m ts).map Prod.fst).Nodup := by
  induction ts generalizing m with
  | nil => exact h
  | cons p rest ih =>
    exact ih (bumpToken m p.1 p.2) (keys_nodup_bump m p.1 p.2 h)

theorem lookupD_balance_fold (utxos : List Utxo) (m : List (String × Int))
    (a : String) :
    lookupD (utxos.foldl (fun acc u => addTokens acc u.tokens) m) a =
      lookupD m a + (utxos.map (fun u => tsSumAll u.tokens a)).sum := by
  induction utxos generalizing m with
  | nil => simp
  | cons u rest ih =>
    simp only [List.foldl_cons, List.map_cons, List.sum_cons]
    rw [ih, lookupD_addTokens]
    ring

theorem lookupD_balanceTokens (utxos : List Utxo) (a : String) :
    lookupD (balanceTokens utxos) a =
      (utxos.map (fun u => tsSumAll u.tokens a)).sum := by
  have := lookupD_balance_fold utxos [] a
  simpa [balanceTokens, lookupD] using this

theorem balanceTokens_keys_nodup (utxos : List Utxo) :
    ((balanceTokens utxos).map Prod.fst).Nodup := by
  have : ∀ (l : List Utxo) (m : List (String × Int)), (m.map Prod.fst).Nodup →
      ((l.foldl (fun acc u => addTokens acc u.tokens) m).map Prod.fst).Nodup := by
    intro l
    induction l with
    | nil => exact fun m h => h
    | cons u rest ih =>
      intro m h
      exact ih _ (keys_nodup_addTokens u.tokens m h)
  simpa [balanceTokens] using this utxos [] (by simp)

theorem mem_keys_balanceTokens (utxos : List Utxo) (b : String) :
    b ∈ (balanceTokens utxos).map Prod.fst ↔
      ∃ u ∈ utxos, b ∈ u.tokens.map Prod.fst := by
  have : ∀ (l : List Utxo) (m : List (String × Int)),
      (b ∈ (l.foldl (fun acc u => addTokens acc u.tokens) m).map Prod.fst ↔
        b ∈ m.map Prod.fst ∨ ∃ u ∈ l, b ∈ u.tokens.map Prod.fst) := by
    intro l
    induction l with
    | nil => simp
    | cons u rest ih =>
      intro m
      simp only [List.foldl_cons]
      rw [ih, mem_keys_addTokens]
      simp
      tauto
  have h := this utxos []
  simpa [balanceTokens] using h

theorem tsSumAll_eq_zero_of_not_mem (ts : List (String × Int)) (a : String)
    (h : a ∉ ts.map Prod.fst) : tsSumAll ts a = 0 := by
  induction ts with
  | nil => rfl
  | cons p rest ih =>
    simp only [List.map_cons, List.mem_cons, not_or] at h
    rw [tsSumAll_cons, if_neg (fun hc => h.1 hc.symm), ih h.2]
    simp

theorem tsSumAll_eq_lookupD (ts : List (String × Int)) (a : String)
    (h : (ts.map Prod.fst).Nodup) : tsSumAll ts a = lookupD ts a := by
  induction ts with
  | nil => rfl
  | cons p rest ih =>
    simp only [List.map_cons, List.nodup_cons] at h
    by_cases hp : p.1 = a
    · have hrest : tsSumAll rest a = 0 :=
        tsSumAll_eq_zero_of_not_mem rest a (hp ▸ h.1)
      rw [tsSumAll_cons, if_pos hp, hrest]
      simp [lookupD, hp]
    · rw [tsSumAll_cons, if_neg hp, ih h.2]
      simp [lookupD, hp]

theorem tsSumAll_eq_quantityOf (u : Utxo) (a : String)
    (h : (u.tokens.map Prod.fst).Nodup) : tsSumAll u.tokens a = quantityOf u a :=
  tsSumAll_eq_lookupD u.tokens a h

/-! ## Claim C10 -/

/-- C10: `AbstractWallet.balance` is a homomorphism over the UTxO snapshot:
for every asset id, the reported total equals the sum of that asset's
quantities across all UTxOs (token dicts having unique keys, as the parser
guarantees), and an asset appearing in no UTxO is absent from the balance
dict — hence reported as zero by lookup. -/
theorem balance_is_snapshot_homomorphism :
    ∀ (w : Wallet), (∀ u ∈ w.utxos, (u.tokens.map Prod.fst).Nodup) →
      ∀ a : String,
        lookupD (balance w).1 a = sumQ a w.utxos
        ∧ ((∀ u ∈ w.utxos, a ∉ u.tokens.map Prod.fst) →
            a ∉ (balance w).1.map Prod.fst ∧ lookupD (balance w).1 a = 0) := by
  intro w hnd a
  constructor
  · rw [show (balance w).1 = balanceTokens w.utxos from rfl, lookupD_balanceTokens]
    unfold sumQ
    congr 1
    exact List.map_congr_left fun u hu => tsSumAll_eq_quantityOf u a (hnd u hu)
  · intro habs
    have hmem : a ∉ (balanceTokens w.utxos).map Prod.fst := by
      rw [mem_keys_balanceTokens]
      rintro ⟨u, hu, hk⟩
      exact habs u hu hk
    refine ⟨hmem, ?_⟩
    rw [show (balance w).1 = balanceTokens w.utxos from rfl, lookupD_balanceTokens]
    have : ∀ u ∈ w.utxos, tsSumAll u.tokens a = 0 := fun u hu =>
      tsSumAll_eq_zero_of_not_mem u.tokens a (fun hk => habs u hu hk)
    rw [List.map_congr_left this]
    simp

/-- Witness for `balance_is_snapshot_homomorphism` at a concrete wallet. -/
theorem balance_is_snapshot_homomorphism_witness :
    (∀ u ∈ walletAB.utxos, (u.tokens.map Prod.fst).Nodup) ∧
    lookupD (balance walletAB).1 "A" = sumQ "A" walletAB.utxos ∧
    ((∀ u ∈ walletAB.utxos, "Z" ∉ u.tokens.map Prod.fst) →
      "Z" ∉ (balance walletAB).1.map Prod.fst ∧ lookupD (balance walletAB).1 "Z" = 0) :=
  ⟨by decide,
   (balance_is_snapshot_homomorphism walletAB (by decide) "A").1,
   (balance_is_snapshot_homomorphism walletAB (by decide) "Z").2⟩

/-! ## setLast frame lemmas -/

theorem setLast_frame (outs : List TxOut) (newOut : TxOut) (i : Nat)
    (h : i < outs.length - 1) : (setLast outs newOut)[i]? = outs[i]? := by
  unfold setLast
  rw [List.getElem?_set_ne]
  omega

theorem setLast_length (outs : List TxOut) (newOut : TxOut) :
    (setLast outs newOut).length = outs.length := by
  simp [setLast]

theorem setLast_append_singleton (outs : List TxOut) (c c' : TxOut) :
    setLast (outs ++ [c]) c' = outs ++ [c'] := by
  unfold setLast
  rw [List.length_append]
  simp

theorem setLast_pair (o c c' : TxOut) : setLast [o, c] c' = [o, c'] := rfl

/-! ## Claim C8 -/

/-- C8: the draft is `transaction build-raw` at `fee=0` over exactly the
given inputs and outputs (`tx_args = inputs + outputs`); rewriting the
change output touches only the last list position; and between the dry-run
draft and the password-path finalized transaction of `send_lovelace`, the
inputs and every output except the last coincide. -/
theorem draft_fee_zero_and_only_last_output_rewritten :
    (∀ (ins : List (String × Nat)) (outs : List TxOut),
      (generate_draft ins outs).fee = 0 ∧
      (generate_draft ins outs).inputs = ins ∧
      (generate_draft ins outs).outputs = outs ∧
      txArgs (generate_draft ins outs) =
        ins.map TxArg.inArg ++ outs.map TxArg.outArg)
    ∧ (∀ (outs : List TxOut) (newOut : TxOut) (i : Nat), i < outs.length - 1 →
      (setLast outs newOut)[i]? = outs[i]? ∧
      (setLast outs newOut).length = outs.length)
    ∧ (∀ (w : Wallet) (quantity : Int) (toAddress : String)
        (est txFee : Int) (d f : Tx),
      send_lovelace w quantity toAddress est txFee false = .ok d →
      send_lovelace w quantity toAddress est txFee true = .ok f →
      d.fee = 0 ∧ f.inputs = d.inputs ∧ f.outputs.length = d.outputs.length ∧
        ∀ i : Nat, i < d.outputs.length - 1 → f.outputs[i]? = d.outputs[i]?) := by
  refine ⟨fun ins outs => ⟨rfl, rfl, rfl, rfl⟩,
    fun outs newOut i h => ⟨setLast_frame outs newOut i h, setLast_length outs newOut⟩,
    ?_⟩
  intro w quantity toAddress est txFee d f hd hf
  simp only [send_lovelace, Bool.false_eq_true, if_false, if_true,
    Except.ok.injEq] at hd hf
  subst hd
  subst hf
  refine ⟨rfl, rfl, ?_, ?_⟩
  · simp [submitTx, finalizeLast, setLast_length]
  · intro i hi
    simpa [submitTx, finalizeLast] using
      setLast_frame _ _ i (by simpa [generate_draft] using hi)

/-- Witness for `draft_fee_zero_and_only_last_output_rewritten` at a concrete
wallet. -/
theorem draft_fee_zero_and_only_last_output_rewritten_witness :
    (0 < ([⟨"x", 1, []⟩, ⟨"y", 2, []⟩] : List TxOut).length - 1 ∧
      (setLast [⟨"x", 1, []⟩, ⟨"y", 2, []⟩] ⟨"z", 3, []⟩)[0]? =
        ([⟨"x", 1, []⟩, ⟨"y", 2, []⟩] : List TxOut)[0]?) ∧
    (send_lovelace walletSmall 50 "to" 0 7 false =
        .ok ⟨[("h1", 0)], [⟨"to", 50, []⟩, ⟨"self", 100, []⟩], 0, false⟩ ∧
      send_lovelace walletSmall 50 "to" 0 7 true =
        .ok ⟨[("h1", 0)], [⟨"to", 50, []⟩, ⟨"self", 43, []⟩], 7, true⟩ ∧
      (⟨[("h1", 0)], [⟨"to", 50, []⟩, ⟨"self", 100, []⟩], 0, false⟩ : Tx).fee = 0 ∧
      (⟨[("h1", 0)], [⟨"to", 50, []⟩, ⟨"self", 43, []⟩], 7, true⟩ : Tx).inputs =
        (⟨[("h1", 0)], [⟨"to", 50, []⟩, ⟨"self", 100, []⟩], 0, false⟩ : Tx).inputs) := by
  constructor
  · exact ⟨by decide,
      (draft_fee_zero_and_only_last_output_rewritten.2.1
        [⟨"x", 1, []⟩, ⟨"y", 2, []⟩] ⟨"z", 3, []⟩ 0 (by decide)).1⟩
  · have h := draft_fee_zero_and_only_last_output_rewritten.2.2 walletSmall 50 "to" 0 7
      ⟨[("h1", 0)], [⟨"to", 50, []⟩, ⟨"self", 100, []⟩], 0, false⟩
      ⟨[("h1", 0)], [⟨"to", 50, []⟩, ⟨"self", 43, []⟩], 7, true⟩ rfl rfl
    exact ⟨rfl, rfl, h.1, h.2.1⟩

/-! ## Claim C2 -/

/-- C2 counterexample: with a single 100-lovelace UTxO, sending 50 with a
computed fee of 200 makes the rewritten change output negative (−150 < 0,
hence below any minimum UTxO value), yet `send_lovelace` does not fail: it
proceeds through signing and submission with the invalid output. -/
theorem finalization_without_min_utxo_check_cex :
    send_lovelace walletSmall 50 "to" 0 200 true =
      .ok ⟨[("h1", 0)], [⟨"to", 50, []⟩, ⟨"self", -150, []⟩], 200, true⟩ ∧
    ((-150 : Int) < 0) :=
  ⟨rfl, by decide⟩

/-- C2 (amended): only `CardanoUtils.consolidate_tokens` (util.py) performs
the mandatory check: when the rewritten change `remaining − fee` falls below
`minUTxOValue` it raises insufficient funds before any signing step, and
otherwise submits with the change output rewritten to exactly
`remaining − fee`.  The wallet use-case pipelines perform no such check:
`send_lovelace` reaches submission on the password path regardless of the
change amount. -/
theorem consolidate_tokens_min_utxo_check :
    (∀ (w : Wallet) (minUtxoValue txFee : Int),
      utilRemaining w minUtxoValue - txFee < minUtxoValue →
      utilConsolidateTokens w minUtxoValue txFee =
        .error (.insufficientFunds
          "Insufficient lovelace available to perform consolidation."))
    ∧ (∀ (w : Wallet) (minUtxoValue txFee : Int),
      ¬ (utilRemaining w minUtxoValue - txFee < minUtxoValue) →
      utilConsolidateTokens w minUtxoValue txFee =
        .ok ⟨w.utxos.map utxoKey,
          utilTokenOuts w (minUtxoValue * 2) ++
            [⟨w.payment_address, utilRemaining w minUtxoValue - txFee, []⟩],
          txFee, true⟩)
    ∧ (∀ (w : Wallet) (quantity : Int) (toAddress : String) (est txFee : Int),
      ∃ t : Tx, send_lovelace w quantity toAddress est txFee true = .ok t ∧
        t.submitted = true) := by
  refine ⟨?_, ?_, ?_⟩
  · intro w minUtxoValue txFee h
    simp only [utilConsolidateTokens, if_pos h]
  · intro w minUtxoValue txFee h
    simp only [utilConsolidateTokens, if_neg h, submitTx, finalizeLast,
      generate_draft, setLast_append_singleton]
  · intro w quantity toAddress est txFee
    exact ⟨_, rfl, rfl⟩

/-- Witness for `consolidate_tokens_min_utxo_check` at concrete inputs. -/
theorem consolidate_tokens_min_utxo_check_witness :
    (utilRemaining walletAB 3 - 100 < 3 ∧
      utilConsolidateTokens walletAB 3 100 =
        .error (.insufficientFunds
          "Insufficient lovelace available to perform consolidation.")) ∧
    (¬ (utilRemaining walletSmall 3 - 5 < 3) ∧
      utilConsolidateTokens walletSmall 3 5 =
        .ok ⟨walletSmall.utxos.map utxoKey,
          utilTokenOuts walletSmall (3 * 2) ++
            [⟨walletSmall.payment_address, utilRemaining walletSmall 3 - 5, []⟩],
          5, true⟩) :=
  ⟨⟨by decide, consolidate_tokens_min_utxo_check.1 walletAB 3 100 (by decide)⟩,
   ⟨by decide, consolidate_tokens_min_utxo_check.2.1 walletSmall 3 5 (by decide)⟩⟩

/-! ## Claim C3 -/

/-- C3 counterexample: on a wallet with no pure-lovelace UTxO,
`send_lovelace` does not raise insufficient funds: it selects no inputs and
still reaches submission (`submitted = true`), with a change output of
`0 − quantity − fee`. -/
theorem token_only_wallet_send_lovelace_cex :
    lovelace_utxos walletTokenOnly = [] ∧
    send_lovelace walletTokenOnly 7 "to" 0 3 true =
      .ok ⟨[], [⟨"to", 7, []⟩, ⟨"self", -10, []⟩], 3, true⟩ :=
  ⟨rfl, rfl⟩

/-- C3 (amended): on a wallet whose UTxO set contains no UTxO holding only
the native unit, `send_tokens` raises the insufficient-ADA error before any
external submit call; `send_lovelace`, however, performs no such check — it
selects no inputs and on the password path submits a transaction with zero
input lovelace and change output `0 − quantity − fee`. -/
theorem token_only_wallet_behaviour :
    ∀ (w : Wallet), lovelace_utxos w = [] →
      (∀ (assetId : String) (quantity : Int) (toAddress : String)
          (dustFn : String → Int) (txFee : Int) (password : Bool),
        send_tokens w assetId quantity toAddress dustFn txFee password =
          .error (.insufficientFunds "Insufficient ADA funds to complete transaction"))
      ∧ (∀ (quantity : Int) (toAddress : String) (est txFee : Int),
        send_lovelace w quantity toAddress est txFee true =
          .ok ⟨[], [⟨toAddress, quantity, []⟩,
                    ⟨w.payment_address, 0 - quantity - txFee, []⟩],
               txFee, true⟩) := by
  intro w hw
  have hsort : sortUtxosDefault (lovelace_utxos w) = [] := by
    rw [hw]
    rfl
  constructor
  · intro assetId quantity toAddress dustFn txFee password
    simp only [send_tokens, hsort]
  · intro quantity toAddress est txFee
    simp only [send_lovelace, sendLovelaceSelected, hsort, greedyAccum,
      sumQ_nil, if_true, generate_draft, finalizeLast, submitTx,
      setLast_pair, List.map_nil]

/-- Witness for `token_only_wallet_behaviour` at the concrete token-only
wallet. -/
theorem token_only_wallet_behaviour_witness :
    lovelace_utxos walletTokenOnly = [] ∧
    send_tokens walletTokenOnly "A" 1 "to" (fun _ => 1) 1 true =
      .error (.insufficientFunds "Insufficient ADA funds to complete transaction") ∧
    send_lovelace walletTokenOnly 7 "to" 0 3 true =
      .ok ⟨[], [⟨"to", 7, []⟩,
                ⟨walletTokenOnly.payment_address, 0 - 7 - 3, []⟩], 3, true⟩ :=
  ⟨rfl,
   (token_only_wallet_behaviour walletTokenOnly rfl).1 "A" 1 "to" (fun _ => 1) 1 true,
   (token_only_wallet_behaviour walletTokenOnly rfl).2 7 "to" 0 3⟩

/-! ## Claim C7 -/

/-- C7: `MintingPolicyManager.create` persists the policy only after key
generation, key hashing, script construction and policy-id computation have
all succeeded: on any failure the policy database is unchanged (no partial
record), and on success exactly the fully-populated record is appended. -/
theorem minting_policy_no_partial_persist :
    ∀ (o : PolicyOracle) (ib ih : Option Nat) (db : List PolicyRecord),
      (∀ e, (mintingPolicyCreate o ib ih db).1 = .error e →
        (mintingPolicyCreate o ib ih db).2 = db)
      ∧ (∀ p, (mintingPolicyCreate o ib ih db).1 = .ok p →
        (mintingPolicyCreate o ib ih db).2 = db ++ [p]) := by
  intro o ib ih db
  rcases hkg : o.keyGen with e | ⟨sk, vk⟩
  · constructor
    · intro e' _
      simp [mintingPolicyCreate, hkg]
    · intro p hp
      simp [mintingPolicyCreate, hkg] at hp
  · rcases hkh : o.keyHash vk with e | kh
    · constructor
      · intro e' _
        simp [mintingPolicyCreate, hkg, hkh]
      · intro p hp
        simp [mintingPolicyCreate, hkg, hkh] at hp
    · rcases hpid : o.policyIdOfScript (buildPolicyScript kh ib ih) with e | pid
      · constructor
        · intro e' _
          simp [mintingPolicyCreate, hkg, hkh, hpid]
        · intro p hp
          simp [mintingPolicyCreate, hkg, hkh, hpid] at hp
      · constructor
        · intro e' he
          simp [mintingPolicyCreate, hkg, hkh, hpid] at he
        · intro p hp
          simp only [mintingPolicyCreate, hkg, hkh, hpid, Except.ok.injEq] at hp
          subst hp
          simp [mintingPolicyCreate, hkg, hkh, hpid]

/-- Witness for `minting_policy_no_partial_persist`: a failing key-hash call
leaves the database unchanged, and an all-success oracle appends exactly the
created record. -/
theorem minting_policy_no_partial_persist_witness :
    ((mintingPolicyCreate failingHashOracle none none []).1 = .error "key-hash failed" ∧
      (mintingPolicyCreate failingHashOracle none none []).2 = []) ∧
    ((mintingPolicyCreate okPolicyOracle none none []).1 =
        .ok ⟨"pid", [ScriptClause.sigClause "kh"], "sk", "vk"⟩ ∧
      (mintingPolicyCreate okPolicyOracle none none []).2 =
        [⟨"pid", [ScriptClause.sigClause "kh"], "sk", "vk"⟩]) :=
  ⟨⟨rfl, (minting_policy_no_partial_persist failingHashOracle none none []).1
      "key-hash failed" rfl⟩,
   ⟨rfl, (minting_policy_no_partial_persist okPolicyOracle none none []).2
      ⟨"pid", [ScriptClause.sigClause "kh"], "sk", "vk"⟩ rfl⟩⟩

/-! ## Lemmas towards the balance invariant (C1) -/

theorem outLovelaceSum_nil : outLovelaceSum [] = 0 := rfl

theorem outLovelaceSum_append (xs ys : List TxOut) :
    outLovelaceSum (xs ++ ys) = outLovelaceSum xs + outLovelaceSum ys := by
  simp [outLovelaceSum]

theorem outAssetSum_nil (a : String) : outAssetSum a [] = 0 := rfl

theorem outAssetSum_append (a : String) (xs ys : List TxOut) :
    outAssetSum a (xs ++ ys) = outAssetSum a xs + outAssetSum a ys := by
  simp [outAssetSum]

theorem outAssetSum_cons (a : String) (o : TxOut) (os : List TxOut) :
    outAssetSum a (o :: os) =
      ((o.tokens.filter (fun p => p.1 == a)).map Prod.snd).sum + outAssetSum a os := by
  simp [outAssetSum]

theorem outAssetSum_no_tokens (a : String) (addr : String) (lov : Int) :
    outAssetSum a [⟨addr, lov, []⟩] = 0 := by
  simp [outAssetSum]

theorem outAssetSum_single_bundle (a : String) (addr : String) (lov q : Int)
    (b : String) :
    outAssetSum a [⟨addr, lov, [(b, q)]⟩] = if b = a then q else 0 := by
  by_cases h : b = a <;> simp [outAssetSum, h]

theorem sumQ_eq_zero (a : String) (us : List Utxo)
    (h : ∀ u ∈ us, quantityOf u a = 0) : sumQ a us = 0 := by
  induction us with
  | nil => rfl
  | cons u rest ih =>
    rw [sumQ_cons, h u (List.mem_cons_self u rest),
      ih (fun v hv => h v (List.mem_cons_of_mem u hv))]
    simp

/-- Membership in `filter_utxos(…, include=lovelace_unit)` means membership
in the snapshot with a single-asset token dict. -/
theorem mem_filter_incl_lovelace (utxos : List Utxo) (u : Utxo)
    (hu : u ∈ filter_utxos utxos (some lovelace_unit) none) :
    u ∈ utxos ∧ (assetTypes u).length = 1 := by
  induction utxos with
  | nil => simp [filter_utxos] at hu
  | cons v rest ih =>
    have hsplit : filter_utxos (v :: rest) (some lovelace_unit) none =
        filterKeep (some lovelace_unit) none v ++
          filter_utxos rest (some lovelace_unit) none := rfl
    rw [hsplit, List.mem_append] at hu
    rcases hu with hu | hu
    · have hu' : u ∈ (if (assetTypes v).length = 1 then [v] else ([] : List Utxo)) := by
        simpa [filterKeep] using hu
      by_cases hlen : (assetTypes v).length = 1
      · rw [if_pos hlen] at hu'
        simp only [List.mem_singleton] at hu'
        subst hu'
        exact ⟨List.mem_cons_self _ _, hlen⟩
      · rw [if_neg hlen] at hu'
        exact absurd hu' (List.not_mem_nil u)
    · obtain ⟨h1, h2⟩ := ih hu
      exact ⟨List.mem_cons_of_mem v h1, h2⟩

/-- A single-asset UTxO that holds lovelace holds nothing else. -/
theorem quantityOf_single_lovelace (u : Utxo)
    (hlen : (assetTypes u).length = 1) (hlov : lovelace_unit ∈ assetTypes u)
    (a : String) (ha : a ≠ lovelace_unit) : quantityOf u a = 0 := by
  have : u.tokens.length = 1 := by simpa [assetTypes] using hlen
  obtain ⟨p, hp⟩ := List.length_eq_one.mp this
  have hkey : p.1 = lovelace_unit := by
    have := hlov
    simp only [assetTypes, hp, List.map_cons, List.map_nil,
      List.mem_singleton] at this
    exact this.symm
  rw [quantityOf, hp, lookupD]
  rw [if_neg (fun hc => ha (hc.symm.trans hkey))]
  rfl

theorem sendLovelaceSelected_mem (w : Wallet) (quantity est : Int) (u : Utxo)
    (hu : u ∈ sendLovelaceSelected w quantity est) : u ∈ lovelace_utxos w := by
  have h1 : u ∈ sortUtxosDefault (lovelace_utxos w) :=
    List.Sublist.mem hu (greedyAccum_sub _ _ _ _)
  rw [sortUtxosDefault] at h1
  exact (sort_utxos_perm _ _ _).mem_iff.mp h1

theorem sendTokensTokenSelected_mem (w : Wallet) (assetId : String)
    (quantity : Int) (u : Utxo)
    (hu : u ∈ sendTokensTokenSelected w assetId quantity) :
    u ∈ filter_utxos w.utxos (some assetId) none := by
  have h1 : u ∈ sort_utxos (filter_utxos w.utxos (some assetId) none) assetId "desc" :=
    List.Sublist.mem hu (greedyAccum_sub _ _ _ _)
  exact (sort_utxos_perm _ _ _).mem_iff.mp h1

theorem mem_of_filter_incl (utxos : List Utxo) (i : String) (u : Utxo)
    (hu : u ∈ filter_utxos utxos (some i) none) : u ∈ utxos :=
  List.Sublist.mem hu (filter_utxos_incl_sub utxos i)

/-- The change-output sum over the per-asset outputs of `consolidate_utxos`
equals the per-asset total of the filtered balance dict. -/
theorem tsSumAll_eq_sum_ite (ts : List (String × Int)) (a : String) :
    tsSumAll ts a = (ts.map (fun p => if p.1 = a then p.2 else 0)).sum := by
  induction ts with
  | nil => rfl
  | cons p rest ih =>
    rw [tsSumAll_cons, ih]
    simp

theorem outAssetSum_token_outs (a : String) (rest : List (String × Int))
    (mkOut : String × Int → TxOut)
    (hmk : ∀ p, (mkOut p).tokens = [(p.1, p.2)]) :
    outAssetSum a (rest.map mkOut) = tsSumAll rest a := by
  induction rest with
  | nil => simp [outAssetSum, tsSumAll_nil]
  | cons p ps ih =>
    rw [List.map_cons, outAssetSum_cons, ih, tsSumAll_cons, hmk]
    by_cases h : p.1 = a <;> simp [h]

theorem tsSumAll_filter_ne (ts : List (String × Int)) (a : String)
    (ha : a ≠ lovelace_unit) :
    tsSumAll (ts.filter (fun p => ¬ (p.1 = lovelace_unit))) a = tsSumAll ts a := by
  induction ts with
  | nil => rfl
  | cons p rest ih =>
    by_cases h : p.1 = lovelace_unit
    · rw [List.filter_cons_of_neg (by simp [h]), ih, tsSumAll_cons,
        if_neg (fun hc => ha (hc.symm.trans h)), zero_add]
    · rw [List.filter_cons_of_pos (by simp [h]), tsSumAll_cons, tsSumAll_cons, ih]

/-- The lovelace total of the balance dict is the snapshot's lovelace sum. -/
theorem balance_lovelace_total (utxos : List Utxo)
    (hnd : ∀ u ∈ utxos, (u.tokens.map Prod.fst).Nodup) :
    lookupD (balanceTokens utxos) lovelace_unit = sumQ lovelace_unit utxos := by
  rw [lookupD_balanceTokens]
  unfold sumQ
  congr 1
  exact List.map_congr_left fun u hu => tsSumAll_eq_quantityOf u lovelace_unit (hnd u hu)

theorem balance_asset_total (utxos : List Utxo) (a : String)
    (hnd : ∀ u ∈ utxos, (u.tokens.map Prod.fst).Nodup) :
    tsSumAll (balanceTokens utxos) a = sumQ a utxos := by
  rw [tsSumAll_eq_lookupD _ _ (balanceTokens_keys_nodup utxos),
    lookupD_balanceTokens]
  unfold sumQ
  congr 1
  exact List.map_congr_left fun u hu => tsSumAll_eq_quantityOf u a (hnd u hu)

theorem outLovelaceSum_value_outs (addr : String) (values : List Int) :
    outLovelaceSum (values.map (fun v => (⟨addr, v, []⟩ : TxOut))) = values.sum := by
  induction values with
  | nil => rfl
  | cons v vs ih =>
    rw [List.map_cons]
    simp only [outLovelaceSum, List.map_cons, List.sum_cons] at ih ⊢
    rw [ih]

theorem outAssetSum_value_outs (a addr : String) (values : List Int) :
    outAssetSum a (values.map (fun v => (⟨addr, v, []⟩ : TxOut))) = 0 := by
  induction values with
  | nil => rfl
  | cons v vs ih =>
    rw [List.map_cons, outAssetSum_cons, ih]
    simp

/-! ## Claim C1 -/

/-- C1 counterexample: in `send_tokens`, a selected input UTxO carrying a
second asset "B" (neither minted nor burned) contributes 3 B on the input
side while the finalized outputs carry 0 B — token conservation fails for
ride-along assets, refuting the claim's second half. -/
theorem token_conservation_ride_along_cex :
    send_tokens walletAB "A" 5 "to" (fun _ => 1) 1 true =
      .ok ⟨[("h1", 0), ("h2", 0)],
           [⟨"to", 1, [("A", 5)]⟩, ⟨"self", 10, []⟩], 1, true⟩ ∧
    sumQ "B" (sendTokensSelected walletAB "A" 5) = 3 ∧
    outAssetSum "B" [⟨"to", 1, [("A", 5)]⟩, ⟨"self", 10, []⟩] = 0 :=
  ⟨rfl, by decide, by decide⟩

/-- C1 (amended): for every finalized transaction of the five wallet
use-cases, the lovelace identity Σ outputs + fee = Σ selected-input lovelace
holds exactly in integer arithmetic.  Token conservation holds for every
non-native asset in `consolidate_utxos`, for the transferred asset in
`send_tokens`, and (UTxOs always carrying the native unit) vacuously for the
pure-lovelace pipelines `send_lovelace` and `partition_lovelace` and for the
default payment-UTxO path of `mint_tokens` (minted asset excepted); but a
non-native asset other than the transferred one riding on a selected
`send_tokens` input is not conserved (see the counterexample). -/
theorem finalized_balance_invariants :
    (∀ (w : Wallet) (quantity : Int) (toAddress : String) (est txFee : Int) (tx : Tx),
      send_lovelace w quantity toAddress est txFee true = .ok tx →
      (outLovelaceSum tx.outputs + tx.fee =
        sumQ lovelace_unit (sendLovelaceSelected w quantity est))
      ∧ ((∀ u ∈ w.utxos, lovelace_unit ∈ assetTypes u) →
        ∀ a, a ≠ lovelace_unit →
          outAssetSum a tx.outputs = 0 ∧
          sumQ a (sendLovelaceSelected w quantity est) = 0))
    ∧
    (∀ (w : Wallet) (assetId : String) (quantity : Int) (toAddress : String)
        (dustFn : String → Int) (txFee : Int) (tx : Tx),
      send_tokens w assetId quantity toAddress dustFn txFee true = .ok tx →
      (outLovelaceSum tx.outputs + tx.fee =
        sumQ lovelace_unit (sendTokensSelected w assetId quantity))
      ∧ ((∀ u ∈ w.utxos, lovelace_unit ∈ assetTypes u) → assetId ≠ lovelace_unit →
          outAssetSum assetId tx.outputs =
            sumQ assetId (sendTokensSelected w assetId quantity)))
    ∧
    (∀ (w : Wallet) (dustFn : String → Int) (txFee : Int),
      (∀ u ∈ w.utxos, (u.tokens.map Prod.fst).Nodup) →
      (outLovelaceSum (consolidate_utxos w dustFn txFee true).outputs +
          (consolidate_utxos w dustFn txFee true).fee =
        sumQ lovelace_unit w.utxos)
      ∧ ∀ a, a ≠ lovelace_unit →
          outAssetSum a (consolidate_utxos w dustFn txFee true).outputs =
            sumQ a w.utxos)
    ∧
    (∀ (w : Wallet) (values : List Int) (txFee : Int),
      (outLovelaceSum (partition_lovelace w values txFee true).outputs +
          (partition_lovelace w values txFee true).fee =
        sumQ lovelace_unit (lovelace_utxos w))
      ∧ ((∀ u ∈ w.utxos, lovelace_unit ∈ assetTypes u) →
        ∀ a, a ≠ lovelace_unit →
          outAssetSum a (partition_lovelace w values txFee true).outputs = 0 ∧
          sumQ a (lovelace_utxos w) = 0))
    ∧
    (∀ (w : Wallet) (policyId : String) (quantity : Int) (toAddress : String)
        (assetName : Option String) (changeAddress : Option String)
        (dustFn : String → Int) (txFee : Int) (pu : Utxo) (tx : Tx),
      (sortUtxosDefault (lovelace_utxos w)).head? = some pu →
      mint_tokens w policyId quantity toAddress assetName none changeAddress
        dustFn txFee true = .ok tx →
      (outLovelaceSum tx.outputs + tx.fee = sumQ lovelace_unit [pu])
      ∧ ((∀ u ∈ w.utxos, lovelace_unit ∈ assetTypes u) →
        ∀ a, a ≠ lovelace_unit → a ≠ mintAssetId policyId assetName →
          outAssetSum a tx.outputs = 0 ∧ sumQ a [pu] = 0)) := by
  refine ⟨?sl, ?st, ?cu, ?pl, ?mt⟩
  case sl =>
    intro w quantity toAddress est txFee tx h
    simp only [send_lovelace, Bool.false_eq_true, if_false, if_true,
      Except.ok.injEq] at h
    subst h
    constructor
    · simp only [submitTx, finalizeLast, generate_draft, setLast_pair,
        outLovelaceSum, List.map_cons, List.map_nil, List.sum_cons, List.sum_nil]
      ring
    · intro hlov a ha
      constructor
      · simp only [submitTx, finalizeLast, generate_draft, setLast_pair]
        rw [show ([⟨toAddress, quantity, []⟩,
          ⟨w.payment_address,
            sumQ lovelace_unit (sendLovelaceSelected w quantity est) - quantity - txFee,
            []⟩] : List TxOut) = [⟨toAddress, quantity, []⟩] ++
          [⟨w.payment_address,
            sumQ lovelace_unit (sendLovelaceSelected w quantity est) - quantity - txFee,
            []⟩] from rfl, outAssetSum_append, outAssetSum_no_tokens,
          outAssetSum_no_tokens]
        simp
      · refine sumQ_eq_zero a _ (fun u hu => ?_)
        have hm := sendLovelaceSelected_mem w quantity est u hu
        obtain ⟨hw, hlen⟩ := mem_filter_incl_lovelace w.utxos u hm
        exact quantityOf_single_lovelace u hlen (hlov u hw) a ha
  case st =>
    intro w assetId quantity toAddress dustFn txFee tx h
    rcases hsort : sortUtxosDefault (lovelace_utxos w) with _ | ⟨lovUtxo, restUtxos⟩
    · rw [send_tokens] at h
      rw [hsort] at h
      simp at h
    · rw [send_tokens] at h
      rw [hsort] at h
      simp only [] at h
      by_cases hq : sumQ assetId (sendTokensTokenSelected w assetId quantity) < quantity
      · rw [if_pos hq] at h
        simp at h
      · rw [if_neg hq] at h
        simp only [Bool.false_eq_true, if_false, if_true, Except.ok.injEq] at h
        subst h
        have hlovmem : lovUtxo ∈ lovelace_utxos w := by
          have : lovUtxo ∈ sortUtxosDefault (lovelace_utxos w) := by
            rw [hsort]; exact List.mem_cons_self _ _
          rw [sortUtxosDefault] at this
          exact (sort_utxos_perm _ _ _).mem_iff.mp this
        constructor
        · simp only [submitTx, finalizeLast, generate_draft,
            setLast_append_singleton, sendTokensSelected, hsort, sumQ_cons]
          rw [outLovelaceSum_append]
          simp only [outLovelaceSum, List.map_cons, List.map_nil,
            List.sum_cons, List.sum_nil]
          ring
        · intro hlov ha
          have hzero : quantityOf lovUtxo assetId = 0 := by
            obtain ⟨hw, hlen⟩ := mem_filter_incl_lovelace w.utxos lovUtxo hlovmem
            exact quantityOf_single_lovelace lovUtxo hlen (hlov lovUtxo hw) assetId ha
          simp only [submitTx, finalizeLast, generate_draft,
            setLast_append_singleton, sendTokensSelected, hsort, sumQ_cons, hzero]
          rw [outAssetSum_append]
          by_cases hrem : 0 < sumQ assetId (sendTokensTokenSelected w assetId quantity) - quantity
          · rw [if_pos hrem]
            rw [show ([⟨toAddress, dustFn (token_bundle_str quantity assetId),
                [(assetId, quantity)]⟩,
              ⟨w.payment_address,
                dustFn (token_bundle_str
                  (sumQ assetId (sendTokensTokenSelected w assetId quantity) - quantity)
                  assetId),
                [(assetId,
                  sumQ assetId (sendTokensTokenSelected w assetId quantity) - quantity)]⟩] :
                List TxOut) =
              [⟨toAddress, dustFn (token_bundle_str quantity assetId),
                [(assetId, quantity)]⟩] ++
              [⟨w.payment_address,
                dustFn (token_bundle_str
                  (sumQ assetId (sendTokensTokenSelected w assetId quantity) - quantity)
                  assetId),
                [(assetId,
                  sumQ assetId (sendTokensTokenSelected w assetId quantity) - quantity)]⟩]
              from rfl, outAssetSum_append, outAssetSum_single_bundle,
              outAssetSum_single_bundle, outAssetSum_no_tokens, if_pos rfl, if_pos rfl]
            ring
          · rw [if_neg hrem]
            rw [outAssetSum_single_bundle, outAssetSum_no_tokens, if_pos rfl]
            push_neg at hq hrem
            omega
  case cu =>
    intro w dustFn txFee hnd
    constructor
    · simp only [consolidate_utxos, balance, Bool.false_eq_true, if_false,
        if_true, submitTx, finalizeLast, generate_draft, setLast_append_singleton]
      rw [outLovelaceSum_append]
      simp only [outLovelaceSum, List.map_cons, List.map_nil, List.sum_cons,
        List.sum_nil]
      rw [← balance_lovelace_total w.utxos hnd]
      ring
    · intro a ha
      simp only [consolidate_utxos, balance, Bool.false_eq_true, if_false,
        if_true, submitTx, finalizeLast, generate_draft, setLast_append_singleton]
      rw [outAssetSum_append, outAssetSum_no_tokens,
        outAssetSum_token_outs a _ _ (fun p => rfl), tsSumAll_filter_ne _ _ ha,
        balance_asset_total w.utxos a hnd]
      ring
  case pl =>
    intro w values txFee
    constructor
    · simp only [partition_lovelace, Bool.false_eq_true, if_false, if_true,
        submitTx, finalizeLast, generate_draft, setLast_append_singleton]
      rw [outLovelaceSum_append, outLovelaceSum_value_outs]
      simp only [outLovelaceSum, List.map_cons, List.map_nil, List.sum_cons,
        List.sum_nil]
      ring
    · intro hlov a ha
      constructor
      · simp only [partition_lovelace, Bool.false_eq_true, if_false, if_true,
          submitTx, finalizeLast, generate_draft, setLast_append_singleton]
        rw [outAssetSum_append, outAssetSum_value_outs, outAssetSum_no_tokens]
        simp
      · refine sumQ_eq_zero a _ (fun u hu => ?_)
        obtain ⟨hw, hlen⟩ := mem_filter_incl_lovelace w.utxos u hu
        exact quantityOf_single_lovelace u hlen (hlov u hw) a ha
  case mt =>
    intro w policyId quantity toAddress assetName changeAddress dustFn txFee pu tx hpu h
    have hmem : pu ∈ lovelace_utxos w := by
      have h1 : pu ∈ sortUtxosDefault (lovelace_utxos w) :=
        List.mem_of_mem_head? (Option.mem_def.mpr hpu)
      rw [sortUtxosDefault] at h1
      exact (sort_utxos_perm _ _ _).mem_iff.mp h1
    rw [mint_tokens] at h
    simp only [hpu, Bool.false_eq_true, if_false, if_true, Except.ok.injEq] at h
    subst h
    constructor
    · simp only [submitTx, finalizeLast, generate_draft, setLast_pair,
        outLovelaceSum, List.map_cons, List.map_nil, List.sum_cons,
        List.sum_nil, sumQ_cons, sumQ_nil]
      ring
    · intro hlov a ha hanm
      constructor
      · simp only [submitTx, finalizeLast, generate_draft, setLast_pair]
        rw [show ([⟨toAddress, dustFn (token_bundle_str quantity
              (mintAssetId policyId assetName)),
            [(mintAssetId policyId assetName, quantity)]⟩,
          ⟨changeAddress.getD w.payment_address,
            quantityOf pu lovelace_unit -
              dustFn (token_bundle_str quantity (mintAssetId policyId assetName)) -
              txFee, []⟩] : List TxOut) =
          [⟨toAddress, dustFn (token_bundle_str quantity
              (mintAssetId policyId assetName)),
            [(mintAssetId policyId assetName, quantity)]⟩] ++
          [⟨changeAddress.getD w.payment_address,
            quantityOf pu lovelace_unit -
              dustFn (token_bundle_str quantity (mintAssetId policyId assetName)) -
              txFee, []⟩] from rfl, outAssetSum_append, outAssetSum_single_bundle,
          outAssetSum_no_tokens, if_neg (fun hc => hanm hc.symm)]
        ring
      · obtain ⟨hw, hlen⟩ := mem_filter_incl_lovelace w.utxos pu hmem
        rw [sumQ_cons, sumQ_nil,
          quantityOf_single_lovelace pu hlen (hlov pu hw) a ha]
        ring

/-- Witness for `finalized_balance_invariants`: each of the five use-cases
instantiated at a concrete wallet, all hypotheses discharged. -/
theorem finalized_balance_invariants_witness :
    (send_lovelace walletSmall 50 "to" 0 7 true =
        .ok ⟨[("h1", 0)], [⟨"to", 50, []⟩, ⟨"self", 43, []⟩], 7, true⟩ ∧
      outLovelaceSum [⟨"to", 50, []⟩, ⟨"self", 43, []⟩] + 7 =
        sumQ lovelace_unit (sendLovelaceSelected walletSmall 50 0)) ∧
    (send_tokens walletAB "A" 5 "to" (fun _ => 1) 1 true =
        .ok ⟨[("h1", 0), ("h2", 0)],
             [⟨"to", 1, [("A", 5)]⟩, ⟨"self", 10, []⟩], 1, true⟩ ∧
      ("A" : String) ≠ lovelace_unit ∧
      outAssetSum "A" [⟨"to", 1, [("A", 5)]⟩, ⟨"self", 10, []⟩] =
        sumQ "A" (sendTokensSelected walletAB "A" 5)) ∧
    ((∀ u ∈ walletAB.utxos, (u.tokens.map Prod.fst).Nodup) ∧
      outLovelaceSum (consolidate_utxos walletAB (fun _ => 1) 1 true).outputs +
          (consolidate_utxos walletAB (fun _ => 1) 1 true).fee =
        sumQ lovelace_unit walletAB.utxos ∧
      outAssetSum "B" (consolidate_utxos walletAB (fun _ => 1) 1 true).outputs =
        sumQ "B" walletAB.utxos) ∧
    (outLovelaceSum (partition_lovelace walletSmall [10, 20] 3 true).outputs +
        (partition_lovelace walletSmall [10, 20] 3 true).fee =
      sumQ lovelace_unit (lovelace_utxos walletSmall)) ∧
    ((sortUtxosDefault (lovelace_utxos walletSmall)).head? =
        some ⟨"h1", 0, [("lovelace", 100)]⟩ ∧
      mint_tokens walletSmall "P" 1 "to" (some "NFT") none none
          (fun _ => 1) 2 true =
        .ok ⟨[("h1", 0)], [⟨"to", 1, [("P.NFT", 1)]⟩, ⟨"self", 97, []⟩], 2, true⟩ ∧
      outLovelaceSum [⟨"to", 1, [("P.NFT", 1)]⟩, ⟨"self", 97, []⟩] + 2 =
        sumQ lovelace_unit [⟨"h1", 0, [("lovelace", 100)]⟩]) := by
  refine ⟨⟨rfl, ?_⟩, ⟨rfl, by decide, ?_⟩, ⟨by decide, ?_, ?_⟩, ?_, ⟨rfl, rfl, ?_⟩⟩
  · exact (finalized_balance_invariants.1 walletSmall 50 "to" 0 7
      ⟨[("h1", 0)], [⟨"to", 50, []⟩, ⟨"self", 43, []⟩], 7, true⟩ rfl).1
  · exact (finalized_balance_invariants.2.1 walletAB "A" 5 "to" (fun _ => 1) 1
      ⟨[("h1", 0), ("h2", 0)], [⟨"to", 1, [("A", 5)]⟩, ⟨"self", 10, []⟩], 1, true⟩
      rfl).2 (by decide) (by decide)
  · exact (finalized_balance_invariants.2.2.1 walletAB (fun _ => 1) 1 (by decide)).1
  · exact (finalized_balance_invariants.2.2.1 walletAB (fun _ => 1) 1 (by decide)).2
      "B" (by decide)
  · exact (finalized_balance_invariants.2.2.2.1 walletSmall [10, 20] 3).1
  · exact (finalized_balance_invariants.2.2.2.2 walletSmall "P" 1 "to" (some "NFT")
      none (fun _ => 1) 2 ⟨"h1", 0, [("lovelace", 100)]⟩
      ⟨[("h1", 0)], [⟨"to", 1, [("P.NFT", 1)]⟩, ⟨"self", 97, []⟩], 2, true⟩
      rfl rfl).1

/-! ## Claim C5 -/

/-- C5: over the parsed bundle the size computation satisfies
`bundleSizeWords = 6 + ceil((byteCount + 7) / 8)`, and the fixed five-part
test bundle of `tests.py` (one no-name asset plus four named TestNFT assets
under the documented policy ids) sizes to exactly 30 words, as the test
pins. -/
theorem token_bundle_size_formula_and_regression :
    token_bundle_size DEFAULT_TOKEN_BUNDLE = 30 ∧
    ∀ bundle : String,
      token_bundle_size bundle = 6 + (bundleByteCount bundle + 7) ⌈/⌉ 8 := by
  refine ⟨by decide, fun bundle => ?_⟩
  rw [token_bundle_size, Nat.ceilDiv_eq_add_pred_div]
  congr 1

/-! ## Claim C6 -/

theorem isPySpace_not_digit (c : Char) (h : isPySpace c = true) :
    c.isDigit = false := by
  simp only [isPySpace, Bool.or_eq_true, decide_eq_true_eq] at h
  rcases h with ((((h | h) | h) | h) | h) | h <;> subst h <;> decide

theorem takeWhile_dropWhile_split (p : Char → Bool) :
    ∀ (l1 l2 : List Char), (∀ c ∈ l1, p c = true) →
      (∀ c cs, l2 = c :: cs → p c = false) →
      (l1 ++ l2).takeWhile p = l1 ∧ (l1 ++ l2).dropWhile p = l2 := by
  intro l1
  induction l1 with
  | nil =>
    intro l2 _ h2
    cases l2 with
    | nil => simp
    | cons c cs =>
      simp [List.takeWhile_cons, List.dropWhile_cons, h2 c cs rfl]
  | cons a l1 ih =>
    intro l2 h1 h2
    have ha : p a = true := h1 a (List.mem_cons_self a l1)
    have hrec := ih l2 (fun c hc => h1 c (List.mem_cons_of_mem a hc)) h2
    simp [List.takeWhile_cons, List.dropWhile_cons, ha, hrec.1, hrec.2]

theorem listStartsWith_iff (p l : List Char) :
    listStartsWith p l = true ↔ ∃ t, l = p ++ t := by
  induction p generalizing l with
  | nil => simp [listStartsWith]
  | cons a ps ih =>
    cases l with
    | nil => simp [listStartsWith]
    | cons c cs =>
      rw [listStartsWith]
      simp only [Bool.and_eq_true, decide_eq_true_eq, ih]
      constructor
      · rintro ⟨rfl, t, rfl⟩
        exact ⟨t, rfl⟩
      · rintro ⟨t, ht⟩
        injection ht with h1 h2
        exact ⟨h1.symm, t, h2⟩

/-- C6: the fee-response parser returns exactly the integer of a response
matching the anchored `(\d+)\s+Lovelace` pattern (trailing characters
permitted, as with `re.match`), and produces no value at all — the hard
`TypeError` on the unmatched `None`, never a silent zero — on every
response that does not match. -/
theorem calculate_min_fee_parses_exactly :
    ∀ (raw : String) (n : Nat),
      calculate_min_fee raw = some n ↔
      ∃ ds ws rest : List Char,
        raw.toList = ds ++ ws ++ ("Lovelace".toList ++ rest) ∧
        ds ≠ [] ∧ (∀ c ∈ ds, c.isDigit = true) ∧
        ws ≠ [] ∧ (∀ c ∈ ws, isPySpace c = true) ∧
        n = digitsToNat ds := by
  intro raw n
  constructor
  · intro h
    rw [calculate_min_fee, minFeeMatchL] at h
    by_cases hds : (raw.toList.takeWhile Char.isDigit).isEmpty
    · rw [if_pos hds] at h
      exact absurd h (by simp)
    · rw [if_neg hds] at h
      by_cases hws : ((raw.toList.dropWhile Char.isDigit).takeWhile isPySpace).isEmpty
      · rw [if_pos hws] at h
        exact absurd h (by simp)
      · rw [if_neg hws] at h
        by_cases hsw : listStartsWith ("Lovelace".toList)
            ((raw.toList.dropWhile Char.isDigit).dropWhile isPySpace) = true
        · rw [if_pos hsw] at h
          obtain ⟨t, ht⟩ := (listStartsWith_iff _ _).mp hsw
          refine ⟨raw.toList.takeWhile Char.isDigit,
            (raw.toList.dropWhile Char.isDigit).takeWhile isPySpace, t,
            ?_, ?_, ?_, ?_, ?_, ?_⟩
          · calc raw.toList
                = raw.toList.takeWhile Char.isDigit ++
                    raw.toList.dropWhile Char.isDigit :=
                  (List.takeWhile_append_dropWhile _ _).symm
              _ = raw.toList.takeWhile Char.isDigit ++
                    ((raw.toList.dropWhile Char.isDigit).takeWhile isPySpace ++
                     (raw.toList.dropWhile Char.isDigit).dropWhile isPySpace) := by
                  congr 1
                  exact (List.takeWhile_append_dropWhile _ _).symm
              _ = _ := by
                  rw [ht, List.append_assoc]
          · exact fun hc => hds (List.isEmpty_iff.mpr hc)
          · exact fun c hc => List.mem_takeWhile_imp hc
          · exact fun hc => hws (List.isEmpty_iff.mpr hc)
          · exact fun c hc => List.mem_takeWhile_imp hc
          · injection h with h
            exact h.symm
        · rw [if_neg hsw] at h
          exact absurd h (by simp)
  · rintro ⟨ds, ws, rest, heq, hds, hdig, hws, hwsp, rfl⟩
    obtain ⟨w0, ws', rfl⟩ : ∃ w0 ws', ws = w0 :: ws' := by
      cases ws with
      | nil => exact absurd rfl hws
      | cons w0 ws' => exact ⟨w0, ws', rfl⟩
    have hL : "Lovelace".toList = 'L' :: "ovelace".toList := rfl
    have hsplit1 := takeWhile_dropWhile_split Char.isDigit ds
      ((w0 :: ws') ++ ("Lovelace".toList ++ rest)) hdig
      (fun c cs hc => by
        injection hc with hc1 _
        subst hc1
        exact isPySpace_not_digit w0 (hwsp w0 (List.mem_cons_self _ _)))
    have hsplit2 := takeWhile_dropWhile_split isPySpace (w0 :: ws')
      ("Lovelace".toList ++ rest) hwsp
      (fun c cs hc => by
        rw [hL] at hc
        injection hc with hc1 _
        subst hc1
        decide)
    rw [calculate_min_fee, minFeeMatchL, heq, List.append_assoc,
      hsplit1.1, hsplit1.2, hsplit2.1, hsplit2.2]
    rw [if_neg (fun hc => hds (List.isEmpty_iff.mp hc)), if_neg (by simp)]
    rw [if_pos ((listStartsWith_iff _ _).mpr ⟨rest, rfl⟩)]

end DjangoCardano
